import Mathlib

/-!
Listener manager of the broker (`listener/manager.go`).

A shallow embedding of `NewManager`, `Manager.launchMQTTServer` (with the accept
loop it starts) and `Manager.Close`.

The code talks to three outside collaborators: the TLS config builder
(`utils.NewTLSConfigServer`), the transport launcher (`mqtt.NewLauncher(..).Launch`
and the `mqtt.Server` it returns) and the connection handler.  Their answers are
not decided by this package, so they are taken from an environment whose answers
may depend on everything that happened before.  Each call is written to a
chronological trace, and the properties of the code are stated on that trace.
-/

namespace Broker

/-- Go `error` values; `EOF` is `io.EOF`, which the accept loop compares against. -/
inductive Error where
  | EOF
  | other (msg : String)
deriving DecidableEq, Repr

/-- The values of `tls.ClientAuthType` (crypto/tls). -/
inductive ClientAuthType where
  | NoClientCert
  | RequestClientCert
  | RequireAnyClientCert
  | VerifyClientCertIfGiven
  | RequireAndVerifyClientCert
deriving DecidableEq, Repr

/-- Modelled from the spec: the type `utils.Certificate` is declared outside this
repository; the spec lists its certificate material as CA path, client auth mode,
key path and cert path. -/
structure Certificate where
  CA : String
  Key : String
  Cert : String
  ClientAuthType : ClientAuthType
deriving DecidableEq, Repr

/-- The struct `Listener` (listener config); `utils.Certificate` is embedded. -/
structure Listener where
  Address : String
  MaxMessageSize : Nat
  MaxConcurrentStreams : Nat
  Anonymous : Bool
  Certificate : Certificate
deriving DecidableEq, Repr

/-- A built `tls.Config`; a `*tls.Config` is an `Option TLSConfig`, `none` being nil. -/
structure TLSConfig where
  id : Nat
deriving DecidableEq, Repr

/-- A launched `mqtt.Server`: a handle and the address `Addr()` reports for it. -/
structure Server where
  id : Nat
  addr : String
deriving DecidableEq, Repr

/-- An accepted `mqtt.Connection`. -/
structure Connection where
  id : Nat
deriving DecidableEq, Repr

/-- Severity of a log line. -/
inductive Level where
  | debug
  | info
  | error
deriving DecidableEq, Repr

/-- The field attached to a log line (`log.Any("listener", addr)` or `log.Error(err)`). -/
inductive Field where
  | none
  | listener (addr : String)
  | error (err : Error)
deriving DecidableEq, Repr

deriving instance DecidableEq for Except

/-- Everything the code does that is visible from outside, one entry per call.
Calls to collaborators carry the answer they gave. -/
inductive Event where
  | log (level : Level) (msg : String) (field : Field)
  | NewTLSConfigServer (c : Certificate) (res : Except Error (Option TLSConfig))
  | Launch (address : String) (tlsconfig : Option TLSConfig) (res : Except Error Server)
  | go (svr : Server) (anonymous : Bool)
  | Close (svr : Server) (res : Option Error)
  | Accept (svr : Server) (res : Except Error Connection)
  | Handle (conn : Connection) (anonymous : Bool) (returned : Bool)
deriving DecidableEq

/-- The collaborators of the construction and shutdown path.  Every answer may
depend on the trace so far, so any sequence of outcomes is some environment. -/
structure Env where
  Sprintf : String → List String → String
  NewTLSConfigServer : List Event → Certificate → Except Error (Option TLSConfig)
  Launch : List Event → String → Option TLSConfig → Except Error Server
  Close : List Event → Server → Option Error

/-- The interface `Handler`: `Handle tr conn anonymous` tells whether the call
`handler.Handle(conn, anonymous)`, made after the trace `tr`, returns. -/
structure Handler where
  Handle : List Event → Connection → Bool → Bool

/-- The struct `Manager` (the logger field carries no state). -/
structure Manager where
  mqtts : List Server
deriving DecidableEq, Repr

/-- Where an accept loop stands once the Accept results at hand are used up. -/
inductive LoopState where
  | returned
  | inAccept
  | inHandle
deriving DecidableEq, Repr

/-- The body of `for _, svr := range m.mqtts` in `Manager.Close`. -/
def Manager.Close.loop (env : Env) : List Server → List Event → List Event
  | [], tr => tr
  | svr :: rest, tr =>
    let tr := tr ++ [Event.Close svr (env.Close tr svr)]
    let tr := tr ++ [Event.log Level.info "listener has stopped" (Field.listener svr.addr)]
    Manager.Close.loop env rest tr

/-- `func (m *Manager) Close() error`: the trace, the manager afterwards and the
returned error. -/
def Manager.Close (env : Env) (m : Manager) (tr : List Event) :
    List Event × Manager × Option Error :=
  let tr := tr ++ [Event.log Level.info "listener manager is closing" Field.none]
  let tr := Manager.Close.loop env m.mqtts tr
  (tr ++ [Event.log Level.info "listener manager has closed" Field.none], m, none)

/-- `func (m *Manager) launchMQTTServer(address, tlsconfig, anonymous, handler)`:
the goroutine it starts is recorded as a `go` entry; what the goroutine does is
`acceptLoop`. -/
def Manager.launchMQTTServer (env : Env) (address : String) (tlsconfig : Option TLSConfig)
    (anonymous : Bool) (tr : List Event) : List Event × Except Error Server :=
  match env.Launch tr address tlsconfig with
  | .error err => (tr ++ [Event.Launch address tlsconfig (.error err)], .error err)
  | .ok svr =>
    (tr ++ [Event.Launch address tlsconfig (.ok svr), Event.go svr anonymous], .ok svr)

/-- The goroutine of `launchMQTTServer`: `for { conn, err := svr.Accept(); ... }`.
`results` are the answers of successive `svr.Accept()` calls; when they are used
up the loop is waiting inside `Accept`. -/
def acceptLoop (handler : Handler) (svr : Server) (anonymous : Bool) :
    List (Except Error Connection) → List Event → List Event × LoopState
  | [], tr => (tr, LoopState.inAccept)
  | .error err :: _, tr =>
    let tr := tr ++ [Event.Accept svr (.error err)]
    if err = Error.EOF then
      (tr ++ [Event.log Level.debug "failed to accept connection" (Field.error err)],
        LoopState.returned)
    else
      (tr ++ [Event.log Level.error "failed to accept connection" (Field.error err)],
        LoopState.returned)
  | .ok conn :: results, tr =>
    let tr := tr ++ [Event.Accept svr (.ok conn)]
    if handler.Handle tr conn anonymous then
      acceptLoop handler svr anonymous results (tr ++ [Event.Handle conn anonymous true])
    else
      (tr ++ [Event.Handle conn anonymous false], LoopState.inHandle)

/-- The value of `tlsconfigs[key]`: nil when the key is not in the map. -/
def mapGet (tlsconfigs : List (String × Option TLSConfig)) (key : String) : Option TLSConfig :=
  match tlsconfigs.lookup key with
  | some v => v
  | none => none

/-- The body of `for _, c := range cfg` in `NewManager`, followed by the final
`return m, nil`.  `tlsconfigs` is the local map; no statement of the loop
assigns to it. -/
def NewManager.loop (env : Env) (tlsconfigs : List (String × Option TLSConfig)) :
    List Listener → Manager → List Event → List Event × Option Manager × Option Error
  | [], m, tr => (tr, some m, none)
  | c :: cfg, m, tr =>
    let resolved : List Event × Except Error (Option TLSConfig) :=
      if c.Certificate.Key != "" || c.Certificate.Cert != "" then
        match mapGet tlsconfigs
            (env.Sprintf c.Certificate.CA ["`", c.Certificate.Key, "`", c.Certificate.Cert]) with
        | some tlsconfig => (tr, .ok (some tlsconfig))
        | none =>
          let cert := { c.Certificate with ClientAuthType := ClientAuthType.VerifyClientCertIfGiven }
          match env.NewTLSConfigServer tr cert with
          | .error err => (tr ++ [Event.NewTLSConfigServer cert (.error err)], .error err)
          | .ok tlsconfig =>
            (tr ++ [Event.NewTLSConfigServer cert (.ok tlsconfig)], .ok tlsconfig)
      else (tr, .ok none)
    match resolved with
    | (tr, .error err) => ((Manager.Close env m tr).1, none, some err)
    | (tr, .ok tlsconfig) =>
      match Manager.launchMQTTServer env c.Address tlsconfig c.Anonymous tr with
      | (tr, .error err) => ((Manager.Close env m tr).1, none, some err)
      | (tr, .ok svr) =>
        let m : Manager := { m with mqtts := m.mqtts ++ [svr] }
        let tr := tr ++ [Event.log Level.info "listener has initialized" (Field.listener svr.addr)]
        NewManager.loop env tlsconfigs cfg m tr

/-- `func NewManager(cfg []Listener, handler Handler) (*Manager, error)`: the
trace, the returned manager (`none` is nil) and the returned error.  The handler
is only handed on to the goroutines, whose behaviour is `acceptLoop`. -/
def NewManager (env : Env) (cfg : List Listener) : List Event × Option Manager × Option Error :=
  NewManager.loop env [] cfg { mqtts := [] } []


/-! ### Readings of a trace -/

/-- The servers on which `Close()` was invoked, in order. -/
def closed (tr : List Event) : List Server :=
  tr.filterMap fun
    | Event.Close svr _ => some svr
    | _ => none

/-- The servers returned by successful launches, in order. -/
def launched (tr : List Event) : List Server :=
  tr.filterMap fun
    | Event.Launch _ _ (.ok svr) => some svr
    | _ => none

/-- The successful launches with the address each was asked for. -/
def launchedAt (tr : List Event) : List (String × Server) :=
  tr.filterMap fun
    | Event.Launch address _ (.ok svr) => some (address, svr)
    | _ => none

/-- Every launch attempted: the address and the TLS config passed to it. -/
def launches (tr : List Event) : List (String × Option TLSConfig) :=
  tr.filterMap fun
    | Event.Launch address tlsconfig _ => some (address, tlsconfig)
    | _ => none

/-- The certificate material of every call of the TLS config builder, in order. -/
def builds (tr : List Event) : List Certificate :=
  tr.filterMap fun
    | Event.NewTLSConfigServer c _ => some c
    | _ => none

/-- The errors reported by failed TLS builds and failed launches, in order. -/
def failures (tr : List Event) : List Error :=
  tr.filterMap fun
    | Event.NewTLSConfigServer _ (.error err) => some err
    | Event.Launch _ _ (.error err) => some err
    | _ => none

/-- The accept loops started: the server each serves and its anonymous flag. -/
def started (tr : List Event) : List (Server × Bool) :=
  tr.filterMap fun
    | Event.go svr anonymous => some (svr, anonymous)
    | _ => none

/-- The number of `Accept()` calls. -/
def acceptCalls (tr : List Event) : Nat :=
  (tr.filterMap fun
    | Event.Accept _ res => some res
    | _ => none).length

/-- The certificate material handed to the builder for a spec (line 52 overwrites
the client-auth mode of the loop copy). -/
def serverCertificate (c : Listener) : Certificate :=
  { c.Certificate with ClientAuthType := ClientAuthType.VerifyClientCertIfGiven }

/-- The outside calls one pass of the `NewManager` loop makes for the spec `c`
after the trace `tr`, with the launch result; `NewManager.loop_cons` shows that
the loop (whose map stays empty) makes exactly these. -/
def attempt (env : Env) (c : Listener) (tr : List Event) : List Event × Except Error Server :=
  if c.Certificate.Key != "" || c.Certificate.Cert != "" then
    match env.NewTLSConfigServer tr (serverCertificate c) with
    | .error err => ([Event.NewTLSConfigServer (serverCertificate c) (.error err)], .error err)
    | .ok tlsconfig =>
      let ev := Event.NewTLSConfigServer (serverCertificate c) (.ok tlsconfig)
      match env.Launch (tr ++ [ev]) c.Address tlsconfig with
      | .error err => ([ev, Event.Launch c.Address tlsconfig (.error err)], .error err)
      | .ok svr =>
        ([ev, Event.Launch c.Address tlsconfig (.ok svr), Event.go svr c.Anonymous], .ok svr)
  else
    match env.Launch tr c.Address none with
    | .error err => ([Event.Launch c.Address none (.error err)], .error err)
    | .ok svr => ([Event.Launch c.Address none (.ok svr), Event.go svr c.Anonymous], .ok svr)

/-! ### Concrete collaborators used in the examples -/

/-- What `fmt.Sprintf` returns for a format that holds no verb: every operand is
reported as extra. -/
def sprintfExtra (format : String) (a : List String) : String :=
  format ++ "%!(EXTRA " ++ ", ".intercalate (a.map fun s => "string=" ++ s) ++ ")"

/-- A world in which certificates load unless the key path is "missing.key", and
an address binds unless it is "busy:1883".  Every build and every launch hands out
a new object, numbered by its place in the trace.  Closing a server whose address
is ":1884" reports an error. -/
def demoEnv : Env where
  Sprintf := sprintfExtra
  NewTLSConfigServer := fun tr c =>
    if c.Key = "missing.key" then .error (Error.other "open missing.key: no such file")
    else .ok (some { id := tr.length })
  Launch := fun tr address _ =>
    if address = "busy:1883" then .error (Error.other "address already in use")
    else .ok { id := tr.length, addr := address }
  Close := fun _ svr => if svr.addr = ":1884" then some (Error.other "close failed") else none

/-- A plaintext spec. -/
def plainSpec (address : String) (anonymous : Bool) : Listener :=
  { Address := address, MaxMessageSize := 0, MaxConcurrentStreams := 0, Anonymous := anonymous,
    Certificate := { CA := "", Key := "", Cert := "",
                     ClientAuthType := ClientAuthType.NoClientCert } }

/-- A TLS spec. -/
def tlsSpec (address ca key cert : String) : Listener :=
  { Address := address, MaxMessageSize := 0, MaxConcurrentStreams := 0, Anonymous := false,
    Certificate := { CA := ca, Key := key, Cert := cert,
                     ClientAuthType := ClientAuthType.RequireAndVerifyClientCert } }

/-- A handler whose `Handle` always returns. -/
def promptHandler : Handler where
  Handle := fun _ _ _ => true

/-- A handler whose `Handle` serves the connection itself and does not return. -/
def servingHandler : Handler where
  Handle := fun _ _ _ => false

/-- Three specs that all come up: one plaintext, two TLS specs sharing one
certificate. -/
def demoSpecs : List Listener :=
  [plainSpec ":1883" true, tlsSpec ":1884" "ca.pem" "server.key" "server.pem",
   tlsSpec ":1885" "ca.pem" "server.key" "server.pem"]

/-- Four specs of which the third cannot bind. -/
def busySpecs : List Listener :=
  [plainSpec ":1883" true, tlsSpec ":1884" "ca.pem" "server.key" "server.pem",
   plainSpec "busy:1883" false, plainSpec ":1886" false]

/-- Two TLS specs with the same (CA, key, cert) triple. -/
def sharedSpecs : List Listener :=
  [tlsSpec ":1884" "ca.pem" "server.key" "server.pem",
   tlsSpec ":1885" "ca.pem" "server.key" "server.pem"]

/-- A TLS spec whose key path holds the separator of the map key. -/
def firstTLSSpec : Listener := tlsSpec ":1884" "ca.pem" "a`.key" "a.pem"

/-- A TLS spec differing from `firstTLSSpec` in the key path only. -/
def secondTLSSpec : Listener := tlsSpec ":1885" "ca.pem" "b.key" "a.pem"

/-- The trace of `NewManager demoEnv [firstTLSSpec]`. -/
def firstTLSTrace : List Event :=
  [Event.NewTLSConfigServer (serverCertificate firstTLSSpec) (.ok (some { id := 0 })),
   Event.Launch ":1884" (some { id := 0 }) (.ok { id := 1, addr := ":1884" }),
   Event.go { id := 1, addr := ":1884" } false,
   Event.log Level.info "listener has initialized" (Field.listener ":1884")]

/-- A TLS spec whose key file does not exist in `demoEnv`. -/
def brokenTLSSpec : Listener := tlsSpec ":1887" "ca.pem" "missing.key" "a.pem"

/-- The shape of what an accept loop for `svr` adds to the trace, with the state
it ends in: rounds of an accepted connection and a `Handle` call that returned,
closed by a failed `Accept` with its log line, by a `Handle` call that has not
returned, or by nothing when the loop waits in `Accept`. -/
inductive LoopTrace (svr : Server) (anonymous : Bool) : List Event → LoopState → Prop where
  | waiting : LoopTrace svr anonymous [] LoopState.inAccept
  | failed (err : Error) (level : Level) :
    LoopTrace svr anonymous
      [Event.Accept svr (.error err),
       Event.log level "failed to accept connection" (Field.error err)] LoopState.returned
  | serving (conn : Connection) :
    LoopTrace svr anonymous
      [Event.Accept svr (.ok conn), Event.Handle conn anonymous false] LoopState.inHandle
  | round (conn : Connection) (rest : List Event) (st : LoopState) :
    LoopTrace svr anonymous rest st →
    LoopTrace svr anonymous
      (Event.Accept svr (.ok conn) :: Event.Handle conn anonymous true :: rest) st

/-- A server handle for the accept loop examples. -/
def demoServer : Server := { id := 1, addr := ":1883" }

/-- A manager owning two servers; closing the second reports an error in `demoEnv`. -/
def demoManager : Manager :=
  { mqtts := [{ id := 1, addr := ":1883" }, { id := 2, addr := ":1884" }] }

end Broker

namespace Broker

/-! ### Readings of a trace distribute over concatenation -/

theorem closed_append (a b : List Event) : closed (a ++ b) = closed a ++ closed b := by
  simp [closed, List.filterMap_append]

theorem launched_append (a b : List Event) : launched (a ++ b) = launched a ++ launched b := by
  simp [launched, List.filterMap_append]

theorem launchedAt_append (a b : List Event) :
    launchedAt (a ++ b) = launchedAt a ++ launchedAt b := by
  simp [launchedAt, List.filterMap_append]

theorem launches_append (a b : List Event) : launches (a ++ b) = launches a ++ launches b := by
  simp [launches, List.filterMap_append]

theorem builds_append (a b : List Event) : builds (a ++ b) = builds a ++ builds b := by
  simp [builds, List.filterMap_append]

theorem failures_append (a b : List Event) : failures (a ++ b) = failures a ++ failures b := by
  simp [failures, List.filterMap_append]

theorem started_append (a b : List Event) : started (a ++ b) = started a ++ started b := by
  simp [started, List.filterMap_append]

/-! ### Shutdown -/

/-- What the range loop of `Close` adds to the trace: one `Close()` call per
server, in order, and nothing that launches, builds or starts anything. -/
theorem Manager.Close.loop_spec (env : Env) (l : List Server) (tr : List Event) :
    ∃ sfx, Manager.Close.loop env l tr = tr ++ sfx ∧ closed sfx = l ∧ launched sfx = [] ∧
      launches sfx = [] ∧ builds sfx = [] ∧ failures sfx = [] ∧ started sfx = [] := by
  induction l generalizing tr with
  | nil => exact ⟨[], by simp [Manager.Close.loop, closed, launched, launches, builds, failures, started]⟩
  | cons svr rest ih =>
    obtain ⟨sfx, h, hc, hl, hls, hb, hf, hs⟩ := ih
      (tr ++ [Event.Close svr (env.Close tr svr)] ++
        [Event.log Level.info "listener has stopped" (Field.listener svr.addr)])
    refine ⟨[Event.Close svr (env.Close tr svr),
        Event.log Level.info "listener has stopped" (Field.listener svr.addr)] ++ sfx, ?_, ?_, ?_, ?_, ?_, ?_, ?_⟩
    · simp only [Manager.Close.loop]
      rw [h]
      simp
    · rw [closed_append, hc]; simp [closed]
    · rw [launched_append, hl]; simp [launched]
    · rw [launches_append, hls]; simp [launches]
    · rw [builds_append, hb]; simp [builds]
    · rw [failures_append, hf]; simp [failures]
    · rw [started_append, hs]; simp [started]

/-- What a whole `Close` call adds to the trace. -/
theorem Manager.Close_spec (env : Env) (m : Manager) (tr : List Event) :
    ∃ sfx, Manager.Close env m tr = (tr ++ sfx, m, none) ∧ closed sfx = m.mqtts ∧
      launched sfx = [] ∧ launches sfx = [] ∧ builds sfx = [] ∧ failures sfx = [] ∧
      started sfx = [] := by
  obtain ⟨sfx, h, hc, hl, hls, hb, hf, hs⟩ := Manager.Close.loop_spec env m.mqtts
    (tr ++ [Event.log Level.info "listener manager is closing" Field.none])
  refine ⟨[Event.log Level.info "listener manager is closing" Field.none] ++ sfx ++
      [Event.log Level.info "listener manager has closed" Field.none], ?_, ?_, ?_, ?_, ?_, ?_, ?_⟩
  · simp only [Manager.Close]
    rw [h]
    simp
  · rw [closed_append, closed_append, hc]; simp [closed]
  · rw [launched_append, launched_append, hl]; simp [launched]
  · rw [launches_append, launches_append, hls]; simp [launches]
  · rw [builds_append, builds_append, hb]; simp [builds]
  · rw [failures_append, failures_append, hf]; simp [failures]
  · rw [started_append, started_append, hs]; simp [started]

/-! ### One pass of the construction loop -/

/-- The loop of `NewManager`, started with the empty map, makes for each spec
the calls of `attempt`; on failure it closes the manager, on success it appends
the server and goes on. -/
theorem NewManager.loop_cons (env : Env) (c : Listener) (cfg : List Listener) (m : Manager)
    (tr : List Event) :
    NewManager.loop env [] (c :: cfg) m tr =
      match attempt env c tr with
      | (evs, .error err) => ((Manager.Close env m (tr ++ evs)).1, none, some err)
      | (evs, .ok svr) =>
        NewManager.loop env [] cfg { mqtts := m.mqtts ++ [svr] }
          (tr ++ evs ++
            [Event.log Level.info "listener has initialized" (Field.listener svr.addr)]) := by
  simp only [NewManager.loop, attempt, mapGet, List.lookup, serverCertificate,
    Manager.launchMQTTServer]
  by_cases htls : (c.Certificate.Key != "" || c.Certificate.Cert != "") = true
  · simp only [htls, if_true]
    cases hb : env.NewTLSConfigServer tr
        { c.Certificate with ClientAuthType := ClientAuthType.VerifyClientCertIfGiven } with
    | error err => simp
    | ok tlsconfig =>
      simp only []
      cases hl : env.Launch (tr ++ [Event.NewTLSConfigServer
          { c.Certificate with ClientAuthType := ClientAuthType.VerifyClientCertIfGiven }
          (.ok tlsconfig)]) c.Address tlsconfig with
      | error err => simp
      | ok svr => simp
  · simp only [htls]
    cases hl : env.Launch tr c.Address none with
    | error err => simp [hl]
    | ok svr => simp [hl]

/-- A pass that ends in a launched server: nothing failed, nothing was closed,
one server was launched at the address of the spec and one accept loop was started
for it with the anonymous flag of the spec. -/
theorem attempt_ok (env : Env) (c : Listener) (tr evs : List Event) (svr : Server)
    (h : attempt env c tr = (evs, .ok svr)) :
    failures evs = [] ∧ closed evs = [] ∧ launched evs = [svr] ∧
      launchedAt evs = [(c.Address, svr)] ∧ started evs = [(svr, c.Anonymous)] := by
  unfold attempt at h
  split at h
  · split at h
    · simp at h
    · dsimp only at h
      split at h
      · simp at h
      · simp only [Prod.mk.injEq, Except.ok.injEq] at h
        obtain ⟨rfl, rfl⟩ := h
        simp [failures, closed, launched, launchedAt, started]
  · split at h
    · simp at h
    · simp only [Prod.mk.injEq, Except.ok.injEq] at h
      obtain ⟨rfl, rfl⟩ := h
      simp [failures, closed, launched, launchedAt, started]

/-- A pass that ends in an error: exactly one call failed, with that error, and
the pass launched, started and closed nothing. -/
theorem attempt_error (env : Env) (c : Listener) (tr evs : List Event) (e : Error)
    (h : attempt env c tr = (evs, .error e)) :
    failures evs = [e] ∧ closed evs = [] ∧ launched evs = [] ∧ started evs = [] := by
  unfold attempt at h
  split at h
  · split at h
    · simp only [Prod.mk.injEq, Except.error.injEq] at h
      obtain ⟨rfl, rfl⟩ := h
      simp [failures, closed, launched, started]
    · dsimp only at h
      split at h
      · simp only [Prod.mk.injEq, Except.error.injEq] at h
        obtain ⟨rfl, rfl⟩ := h
        simp [failures, closed, launched, started]
      · simp at h
  · split at h
    · simp only [Prod.mk.injEq, Except.error.injEq] at h
      obtain ⟨rfl, rfl⟩ := h
      simp [failures, closed, launched, started]
    · simp at h

/-! ### The construction loop as a whole -/

/-- A run of the loop that returns a manager has gone through every spec: it
extends the trace by one successful launch per spec and by no failure and no
`Close()`. -/
theorem NewManager.loop_ok_spec (env : Env) (cfg : List Listener) (m m' : Manager)
    (tr tr' : List Event) (err : Option Error)
    (h : NewManager.loop env [] cfg m tr = (tr', some m', err)) :
    err = none ∧ ∃ sfx, tr' = tr ++ sfx ∧ failures sfx = [] ∧ closed sfx = [] ∧
      m'.mqtts = m.mqtts ++ launched sfx ∧ (launched sfx).length = cfg.length ∧
      launchedAt sfx = (cfg.map fun c => c.Address).zip (launched sfx) ∧
      started sfx = (launched sfx).zip (cfg.map fun c => c.Anonymous) := by
  induction cfg generalizing m tr with
  | nil =>
    simp only [NewManager.loop, Prod.mk.injEq, Option.some.injEq] at h
    obtain ⟨rfl, rfl, rfl⟩ := h
    exact ⟨rfl, [], by simp [failures, closed, launched, launchedAt, started]⟩
  | cons c cfg ih =>
    rw [NewManager.loop_cons] at h
    rcases hat : attempt env c tr with ⟨evs, _ | svr⟩
    · rw [hat] at h
      simp at h
    · rw [hat] at h
      simp only [] at h
      obtain ⟨he, sfx, rfl, hf, hc, hm, hlen, hla, hst⟩ := ih _ _ h
      obtain ⟨af, ac, al, ala, ast⟩ := attempt_ok env c tr evs svr hat
      refine ⟨he, evs ++ [Event.log Level.info "listener has initialized"
        (Field.listener svr.addr)] ++ sfx, by simp, ?_, ?_, ?_, ?_, ?_, ?_⟩
      · rw [failures_append, failures_append, hf, af]; simp [failures]
      · rw [closed_append, closed_append, hc, ac]; simp [closed]
      · rw [launched_append, launched_append, al, hm]; simp [launched]
      · rw [launched_append, launched_append, al, List.length_append, List.length_append, hlen]
        simp [launched, Nat.add_comm]
      · rw [launchedAt_append, launchedAt_append, launched_append, launched_append, ala, al, hla]
        simp [launched, launchedAt]
      · rw [started_append, started_append, launched_append, launched_append, ast, al, hst]
        simp [launched, started]

/-- Specs after a successfully processed initial segment are processed from the
state that segment left behind. -/
theorem NewManager.loop_append_ok (env : Env) (pre rest : List Listener) (m m' : Manager)
    (tr tr' : List Event) (h : NewManager.loop env [] pre m tr = (tr', some m', none)) :
    NewManager.loop env [] (pre ++ rest) m tr = NewManager.loop env [] rest m' tr' := by
  induction pre generalizing m tr with
  | nil =>
    simp only [NewManager.loop, Prod.mk.injEq, Option.some.injEq] at h
    obtain ⟨rfl, rfl, -⟩ := h
    rfl
  | cons c pre ih =>
    rw [NewManager.loop_cons] at h
    rw [List.cons_append, NewManager.loop_cons]
    rcases hat : attempt env c tr with ⟨evs, _ | svr⟩
    · rw [hat] at h
      simp at h
    · rw [hat] at h
      simp only [] at h ⊢
      exact ih _ _ h

/-- A run of the loop either returns a manager, or there is a first spec (number
`i`, counting from 0) whose pass fails: the specs before it were processed
successfully, its pass adds one failure, and the shutdown that follows closes
exactly the servers collected so far. -/
theorem NewManager.loop_cases (env : Env) (cfg : List Listener) (m : Manager) (tr : List Event) :
    (∃ tr' m', NewManager.loop env [] cfg m tr = (tr', some m', none)) ∨
    (∃ i before m1 evs shutdown e, i < cfg.length ∧
      NewManager.loop env [] (cfg.take i) m tr = (before, some m1, none) ∧
      failures evs = [e] ∧ launched evs = [] ∧ closed evs = [] ∧ started evs = [] ∧
      failures shutdown = [] ∧ launched shutdown = [] ∧ closed shutdown = m1.mqtts ∧
      started shutdown = [] ∧
      NewManager.loop env [] (cfg.take (i + 1)) m tr = (before ++ evs ++ shutdown, none, some e) ∧
      NewManager.loop env [] cfg m tr = (before ++ evs ++ shutdown, none, some e)) := by
  induction cfg generalizing m tr with
  | nil => exact Or.inl ⟨tr, m, rfl⟩
  | cons c cfg ih =>
    rcases hat : attempt env c tr with ⟨evs, e | svr⟩
    · right
      obtain ⟨af, ac, al, ast⟩ := attempt_error env c tr evs e hat
      obtain ⟨sd, hsd, sc, sl, -, -, sf, sst⟩ := Manager.Close_spec env m (tr ++ evs)
      refine ⟨0, tr, m, evs, sd, e, by simp, by simp [NewManager.loop], af, al, ac, ast, sf, sl,
        sc, sst, ?_, ?_⟩
      · simp only [zero_add, List.take_succ_cons, List.take_zero]
        rw [NewManager.loop_cons, hat]
        simp [hsd]
      · rw [NewManager.loop_cons, hat]
        simp [hsd]
    · rcases ih { mqtts := m.mqtts ++ [svr] } (tr ++ evs ++
        [Event.log Level.info "listener has initialized" (Field.listener svr.addr)]) with
        ⟨tr', m', h⟩ | ⟨i, before, m1, fevs, sd, e, hi, hpre, h1, h2, h3, h4, h5, h6, h7, h8, h9, h10⟩
      · left
        refine ⟨tr', m', ?_⟩
        rw [NewManager.loop_cons, hat]
        exact h
      · right
        refine ⟨i + 1, before, m1, fevs, sd, e, by simp [hi], ?_, h1, h2, h3, h4, h5, h6, h7, h8,
          ?_, ?_⟩
        · rw [List.take_succ_cons, NewManager.loop_cons, hat]
          exact hpre
        · rw [List.take_succ_cons, NewManager.loop_cons, hat]
          exact h9
        · rw [NewManager.loop_cons, hat]
          exact h10

/-! ### Construction: all or nothing -/

/-- C1.  Whenever a TLS build or a launch made during construction fails, there
is a first failing spec, number `i` counting from 0: the specs before it were
processed without failure and gave the manager `m` its `i` servers, none of them
closed so far; the pass for spec `i` fails with `e` and launches nothing; then
`Close()` is invoked on exactly the servers of `m`, in order; and `NewManager`
returns a nil manager with the error `e`, whatever specs follow. -/
theorem NewManager_all_or_nothing (env : Env) (cfg : List Listener)
    (h : failures (NewManager env cfg).1 ≠ []) :
    ∃ i before m evs shutdown e, i < cfg.length ∧
      NewManager env (cfg.take i) = (before, some m, none) ∧
      failures before = [] ∧ closed before = [] ∧ launched before = m.mqtts ∧
      m.mqtts.length = i ∧
      failures evs = [e] ∧ launched evs = [] ∧ closed evs = [] ∧
      failures shutdown = [] ∧ launched shutdown = [] ∧ closed shutdown = m.mqtts ∧
      NewManager env (cfg.take (i + 1)) = (before ++ evs ++ shutdown, none, some e) ∧
      NewManager env cfg = (before ++ evs ++ shutdown, none, some e) := by
  rcases NewManager.loop_cases env cfg { mqtts := [] } [] with
    ⟨tr', m', hok⟩ | ⟨i, before, m1, evs, sd, e, hi, hpre, h1, h2, h3, -, h5, h6, h7, -, h9, h10⟩
  · exfalso
    apply h
    obtain ⟨-, sfx, rfl, hf, -⟩ := NewManager.loop_ok_spec env cfg _ _ _ _ _ hok
    simp only [NewManager, hok]
    simpa using hf
  · obtain ⟨-, sfx, rfl, hf, hc, hm, hlen, -⟩ := NewManager.loop_ok_spec env _ _ _ _ _ _ hpre
    simp only [List.nil_append] at hf hc hm hlen h9 h10 hpre ⊢
    refine ⟨i, before, m1, evs, sd, e, hi, hpre, hf, hc, hm.symm, ?_, h1, h2, h3, h5,
      h6, h7, h9, h10⟩
    rw [hm, hlen, List.length_take]
    omega

/-- C1, on `busySpecs`: the third spec cannot bind, so construction returns the
launch error and has closed the two servers launched before. -/
theorem NewManager_all_or_nothing_witness :
    failures (NewManager demoEnv busySpecs).1 ≠ [] ∧
    ∃ e, (NewManager demoEnv busySpecs).2 = (none, some e) ∧
      closed (NewManager demoEnv busySpecs).1 = launched (NewManager demoEnv busySpecs).1 := by
  refine ⟨by decide, ?_⟩
  obtain ⟨i, before, m, evs, sd, e, -, -, -, hcb, hlb, -, -, hle, hce, -, hls, hcs, -, hrun⟩ :=
    NewManager_all_or_nothing demoEnv busySpecs (by decide)
  refine ⟨e, by rw [hrun], ?_⟩
  rw [hrun]
  simp only [closed_append, launched_append, hcb, hlb, hle, hce, hls, hcs]
  simp

/-- C2.  When no TLS build and no launch made during construction fails,
`NewManager` returns no error and a manager with one server per spec, in input
order: the servers are exactly the results of the launches, the launch of the
i-th server was asked for the address of spec i, the accept loop started for it
carries the anonymous flag of spec i, and construction invoked no `Close()`. -/
theorem NewManager_success (env : Env) (cfg : List Listener)
    (h : failures (NewManager env cfg).1 = []) :
    ∃ tr m, NewManager env cfg = (tr, some m, none) ∧ m.mqtts.length = cfg.length ∧
      launched tr = m.mqtts ∧
      launchedAt tr = (cfg.map fun c => c.Address).zip m.mqtts ∧
      started tr = m.mqtts.zip (cfg.map fun c => c.Anonymous) ∧
      closed tr = [] := by
  rcases NewManager.loop_cases env cfg { mqtts := [] } [] with
    ⟨tr', m', hok⟩ | ⟨i, before, m1, evs, sd, e, -, -, h1, -, -, -, -, -, -, -, -, h10⟩
  · obtain ⟨-, sfx, rfl, -, hc, hm, hlen, hla, hst⟩ := NewManager.loop_ok_spec env cfg _ _ _ _ _ hok
    simp only [List.nil_append] at hm hok ⊢
    refine ⟨tr', m', hok, ?_, hm.symm, ?_, ?_, hc⟩
    · rw [hm, hlen]
    · rw [hm, hla]
    · rw [hm, hst]
  · exfalso
    simp only [NewManager, h10, failures_append, h1] at h
    simp at h

/-- C2, on `demoSpecs`: three specs, three servers, none closed. -/
theorem NewManager_success_witness :
    failures (NewManager demoEnv demoSpecs).1 = [] ∧
    ∃ m, (NewManager demoEnv demoSpecs).2 = (some m, none) ∧ m.mqtts.length = 3 ∧
      closed (NewManager demoEnv demoSpecs).1 = [] := by
  refine ⟨by decide, ?_⟩
  obtain ⟨tr, m, hrun, hlen, -, -, -, hc⟩ := NewManager_success demoEnv demoSpecs (by decide)
  exact ⟨m, by rw [hrun], by simpa [demoSpecs] using hlen, by rw [hrun]; exact hc⟩

/-! ### The TLS config map -/

/-- C3, evaluated: for two specs with the same certificate triple the builder is
called twice, with the same material, and the two listeners are launched with
the two different configs that came back. -/
theorem NewManager_shared_certificate_built_twice :
    builds (NewManager demoEnv sharedSpecs).1 =
      [{ CA := "ca.pem", Key := "server.key", Cert := "server.pem",
         ClientAuthType := ClientAuthType.VerifyClientCertIfGiven },
       { CA := "ca.pem", Key := "server.key", Cert := "server.pem",
         ClientAuthType := ClientAuthType.VerifyClientCertIfGiven }] ∧
    launches (NewManager demoEnv sharedSpecs).1 =
      [(":1884", some { id := 0 }), (":1885", some { id := 4 })] := by
  decide

/-! ### Shutdown -/

/-- C6.  `Close` invokes `Close()` on every server of the manager, in the order
of the collection, whatever the earlier calls report, and returns nil. -/
theorem Manager.Close_best_effort (env : Env) (m : Manager) (tr : List Event) :
    ∃ sfx, (Manager.Close env m tr).1 = tr ++ sfx ∧ closed sfx = m.mqtts ∧
      (Manager.Close env m tr).2.2 = none := by
  obtain ⟨sfx, h, hc, -⟩ := Manager.Close_spec env m tr
  exact ⟨sfx, by rw [h], hc, by rw [h]⟩

/-- C9, refuted: after `Close` the manager of `demoManager` still holds its two
servers, and a second `Close` invokes `Close()` on both of them again. -/
theorem Manager.Close_does_not_drain :
    (Manager.Close demoEnv demoManager []).2.1.mqtts ≠ [] ∧
    closed (Manager.Close demoEnv (Manager.Close demoEnv demoManager []).2.1
        (Manager.Close demoEnv demoManager []).1).1 =
      [{ id := 1, addr := ":1883" }, { id := 2, addr := ":1884" },
       { id := 1, addr := ":1883" }, { id := 2, addr := ":1884" }] := by
  decide

/-- C9, amended.  `Close` leaves the collection of the manager as it was; a
second `Close` invokes `Close()` once more on every server, in the same order,
and returns nil like the first. -/
theorem Manager.Close_twice (env : Env) (m : Manager) (tr : List Event) :
    (Manager.Close env m tr).2.1 = m ∧
    ∃ first second, (Manager.Close env m tr).1 = tr ++ first ∧
      (Manager.Close env (Manager.Close env m tr).2.1 (Manager.Close env m tr).1).1 =
        tr ++ first ++ second ∧
      closed first = m.mqtts ∧ closed second = m.mqtts ∧
      (Manager.Close env (Manager.Close env m tr).2.1 (Manager.Close env m tr).1).2.2 = none := by
  obtain ⟨s1, h1, hc1, -⟩ := Manager.Close_spec env m tr
  obtain ⟨s2, h2, hc2, -⟩ := Manager.Close_spec env m (tr ++ s1)
  refine ⟨by rw [h1], s1, s2, by rw [h1], ?_, hc1, hc2, ?_⟩
  · rw [h1]; simp only []; rw [h2]
  · rw [h1]; simp only []; rw [h2]

/-! ### What construction does for one spec -/

/-- A run of the loop only adds to the trace. -/
theorem NewManager.loop_extends (env : Env) (cfg : List Listener) (m : Manager)
    (tr : List Event) : tr <+: (NewManager.loop env [] cfg m tr).1 := by
  induction cfg generalizing m tr with
  | nil => simp [NewManager.loop]
  | cons c cfg ih =>
    rw [NewManager.loop_cons]
    rcases attempt env c tr with ⟨evs, e | svr⟩
    · obtain ⟨sd, hsd, -⟩ := Manager.Close_spec env m (tr ++ evs)
      simp only [hsd]
      exact ⟨evs ++ sd, by simp⟩
    · simp only []
      obtain ⟨t, ht⟩ := ih { mqtts := m.mqtts ++ [svr] } (tr ++ evs ++
        [Event.log Level.info "listener has initialized" (Field.listener svr.addr)])
      exact ⟨evs ++ [Event.log Level.info "listener has initialized"
        (Field.listener svr.addr)] ++ t, by rw [← ht]; simp⟩

/-- The pass for a spec starts with the calls of `attempt`. -/
theorem NewManager.loop_cons_trace (env : Env) (c : Listener) (cfg : List Listener) (m : Manager)
    (tr : List Event) :
    (tr ++ (attempt env c tr).1) <+: (NewManager.loop env [] (c :: cfg) m tr).1 := by
  rw [NewManager.loop_cons]
  rcases attempt env c tr with ⟨evs, e | svr⟩
  · obtain ⟨sd, hsd, -⟩ := Manager.Close_spec env m (tr ++ evs)
    simp only [hsd]
    exact ⟨sd, rfl⟩
  · simp only []
    obtain ⟨t, ht⟩ := NewManager.loop_extends env cfg { mqtts := m.mqtts ++ [svr] } (tr ++ evs ++
      [Event.log Level.info "listener has initialized" (Field.listener svr.addr)])
    exact ⟨[Event.log Level.info "listener has initialized" (Field.listener svr.addr)] ++ t,
      by rw [← ht]; simp⟩

/-- A failed pass ends construction: the error is returned with a nil manager
and nothing is launched afterwards. -/
theorem NewManager.loop_cons_error (env : Env) (c : Listener) (cfg : List Listener) (m : Manager)
    (tr evs : List Event) (e : Error) (h : attempt env c tr = (evs, .error e)) :
    (NewManager.loop env [] (c :: cfg) m tr).2 = (none, some e) ∧
      launches (NewManager.loop env [] (c :: cfg) m tr).1 = launches tr ++ launches evs ∧
      builds (NewManager.loop env [] (c :: cfg) m tr).1 = builds tr ++ builds evs := by
  rw [NewManager.loop_cons, h]
  obtain ⟨sd, hsd, -, -, hl, hb, -⟩ := Manager.Close_spec env m (tr ++ evs)
  refine ⟨by simp [hsd], ?_, ?_⟩
  · simp only [hsd]
    rw [launches_append, launches_append, hl]; simp
  · simp only [hsd]
    rw [builds_append, builds_append, hb]; simp

/-- The pass for a spec with a key or a certificate: the builder is called with
the material of the spec, and the launch uses what the builder returned. -/
theorem attempt_tls (env : Env) (c : Listener) (tr : List Event)
    (htls : c.Certificate.Key ≠ "" ∨ c.Certificate.Cert ≠ "") :
    attempt env c tr =
      match env.NewTLSConfigServer tr (serverCertificate c) with
      | .error err => ([Event.NewTLSConfigServer (serverCertificate c) (.error err)], .error err)
      | .ok tlsconfig =>
        match env.Launch (tr ++ [Event.NewTLSConfigServer (serverCertificate c) (.ok tlsconfig)])
            c.Address tlsconfig with
        | .error err =>
          ([Event.NewTLSConfigServer (serverCertificate c) (.ok tlsconfig),
            Event.Launch c.Address tlsconfig (.error err)], .error err)
        | .ok svr =>
          ([Event.NewTLSConfigServer (serverCertificate c) (.ok tlsconfig),
            Event.Launch c.Address tlsconfig (.ok svr), Event.go svr c.Anonymous], .ok svr) := by
  have h : (c.Certificate.Key != "" || c.Certificate.Cert != "") = true := by
    rcases htls with h | h <;> simp [h]
  simp only [attempt, h, if_true]

/-- The pass for a spec without key and certificate: the launch is the only call,
and it gets a nil TLS config. -/
theorem attempt_plain (env : Env) (c : Listener) (tr : List Event)
    (hkey : c.Certificate.Key = "") (hcert : c.Certificate.Cert = "") :
    attempt env c tr =
      match env.Launch tr c.Address none with
      | .error err => ([Event.Launch c.Address none (.error err)], .error err)
      | .ok svr => ([Event.Launch c.Address none (.ok svr), Event.go svr c.Anonymous], .ok svr) := by
  simp [attempt, hkey, hcert]

/-- Construction of `pre ++ rest`, when `pre` is processed without failure, goes
on with `rest` from the state `pre` left behind. -/
theorem NewManager_append (env : Env) (pre rest : List Listener) (tr : List Event) (m : Manager)
    (hpre : NewManager env pre = (tr, some m, none)) :
    NewManager env (pre ++ rest) = NewManager.loop env [] rest m tr :=
  NewManager.loop_append_ok env pre rest _ m _ tr hpre

/-- C4.  Take two specs `a` and `b` that both have a key or a certificate and
whose (CA, key, cert) triples differ, `b` later in the list than `a`, in a
construction that gets as far as `b` (`tr1` is the trace when the pass for `a`
begins, `tr2` when the pass for `b` begins).  Then the pass for `a` called the
builder with the material of `a` and launched the listener of `a` with the
config `ta` that this call returned; the pass for `b` calls the builder again,
with the material of `b`, which is different, and if that call returns a config
`tb` the listener of `b` is launched with `tb`.  This holds for every
`Sprintf`, so whatever characters the paths hold. -/
theorem NewManager_no_wrong_sharing (env : Env) (l1 l2 l3 : List Listener) (a b : Listener)
    (tr1 tr2 : List Event) (m1 m2 : Manager)
    (ha : a.Certificate.Key ≠ "" ∨ a.Certificate.Cert ≠ "")
    (hb : b.Certificate.Key ≠ "" ∨ b.Certificate.Cert ≠ "")
    (hne : (a.Certificate.CA, a.Certificate.Key, a.Certificate.Cert) ≠
      (b.Certificate.CA, b.Certificate.Key, b.Certificate.Cert))
    (h1 : NewManager env l1 = (tr1, some m1, none))
    (h2 : NewManager env (l1 ++ a :: l2) = (tr2, some m2, none)) :
    ∃ ta sa,
      env.NewTLSConfigServer tr1 (serverCertificate a) = .ok ta ∧
      (tr1 ++ [Event.NewTLSConfigServer (serverCertificate a) (.ok ta),
          Event.Launch a.Address ta (.ok sa)]) <+: tr2 ∧
      (tr2 ++ [Event.NewTLSConfigServer (serverCertificate b)
          (env.NewTLSConfigServer tr2 (serverCertificate b))]) <+:
        (NewManager env (l1 ++ a :: l2 ++ b :: l3)).1 ∧
      (∀ tb, env.NewTLSConfigServer tr2 (serverCertificate b) = .ok tb →
        (tr2 ++ [Event.NewTLSConfigServer (serverCertificate b) (.ok tb),
            Event.Launch b.Address tb
              (env.Launch (tr2 ++ [Event.NewTLSConfigServer (serverCertificate b) (.ok tb)])
                b.Address tb)]) <+:
          (NewManager env (l1 ++ a :: l2 ++ b :: l3)).1) ∧
      serverCertificate a ≠ serverCertificate b := by
  have hrun_a := NewManager_append env l1 (a :: l2) tr1 m1 h1
  rw [h2, NewManager.loop_cons] at hrun_a
  have hrun_b : NewManager env (l1 ++ a :: l2 ++ b :: l3) = NewManager.loop env [] (b :: l3) m2 tr2 := by
    have := NewManager_append env (l1 ++ a :: l2) (b :: l3) tr2 m2 h2
    simpa using this
  have hpass_b := NewManager.loop_cons_trace env b l3 m2 tr2
  rw [← hrun_b, attempt_tls env b tr2 hb] at hpass_b
  have hdiff : serverCertificate a ≠ serverCertificate b := by
    intro heq
    apply hne
    have hCA := congrArg Certificate.CA heq
    have hKey := congrArg Certificate.Key heq
    have hCert := congrArg Certificate.Cert heq
    simp only [serverCertificate] at hCA hKey hCert
    rw [hCA, hKey, hCert]
  rw [attempt_tls env a tr1 ha] at hrun_a
  cases hba : env.NewTLSConfigServer tr1 (serverCertificate a) with
  | error e => rw [hba] at hrun_a; simp at hrun_a
  | ok ta =>
    rw [hba] at hrun_a
    simp only [] at hrun_a
    cases hla : env.Launch (tr1 ++ [Event.NewTLSConfigServer (serverCertificate a) (.ok ta)])
        a.Address ta with
    | error e => rw [hla] at hrun_a; simp at hrun_a
    | ok sa =>
      rw [hla] at hrun_a
      simp only [] at hrun_a
      refine ⟨ta, sa, rfl, ?_, ?_, ?_, hdiff⟩
      · obtain ⟨t, ht⟩ := NewManager.loop_extends env l2 { mqtts := m1.mqtts ++ [sa] }
          (tr1 ++ [Event.NewTLSConfigServer (serverCertificate a) (.ok ta),
            Event.Launch a.Address ta (.ok sa), Event.go sa a.Anonymous] ++
            [Event.log Level.info "listener has initialized" (Field.listener sa.addr)])
        rw [← hrun_a] at ht
        simp only [] at ht
        exact ⟨[Event.go sa a.Anonymous,
          Event.log Level.info "listener has initialized" (Field.listener sa.addr)] ++ t,
          by rw [← ht]; simp⟩
      · cases hbb : env.NewTLSConfigServer tr2 (serverCertificate b) with
        | error e =>
          rw [hbb] at hpass_b
          exact hpass_b
        | ok tb =>
          rw [hbb] at hpass_b
          simp only [] at hpass_b
          obtain ⟨t, ht⟩ := hpass_b
          cases hlb : env.Launch (tr2 ++ [Event.NewTLSConfigServer (serverCertificate b) (.ok tb)])
              b.Address tb with
          | error e =>
            rw [hlb] at ht
            exact ⟨[Event.Launch b.Address tb (.error e)] ++ t, by rw [← ht]; simp⟩
          | ok sb =>
            rw [hlb] at ht
            exact ⟨[Event.Launch b.Address tb (.ok sb), Event.go sb b.Anonymous] ++ t,
              by rw [← ht]; simp⟩
      · intro tb hbb
        rw [hbb] at hpass_b
        simp only [] at hpass_b
        obtain ⟨t, ht⟩ := hpass_b
        cases hlb : env.Launch (tr2 ++ [Event.NewTLSConfigServer (serverCertificate b) (.ok tb)])
            b.Address tb with
        | error e =>
          rw [hlb] at ht
          exact ⟨t, by rw [← ht]⟩
        | ok sb =>
          rw [hlb] at ht
          exact ⟨[Event.go sb b.Anonymous] ++ t, by rw [← ht]; simp⟩

/-- C4, on two specs that differ in the key path only, the first holding the
separator character: each gets its own build and is launched with its result. -/
theorem NewManager_no_wrong_sharing_witness :
    NewManager demoEnv [firstTLSSpec] = (firstTLSTrace, some { mqtts := [{ id := 1, addr := ":1884" }] }, none) ∧
    ∃ ta sa,
      demoEnv.NewTLSConfigServer [] (serverCertificate firstTLSSpec) = .ok ta ∧
      [Event.NewTLSConfigServer (serverCertificate firstTLSSpec) (.ok ta),
          Event.Launch firstTLSSpec.Address ta (.ok sa)] <+: firstTLSTrace ∧
      serverCertificate firstTLSSpec ≠ serverCertificate secondTLSSpec := by
  refine ⟨by decide, ?_⟩
  obtain ⟨ta, sa, h1, h2, -, -, h5⟩ :=
    NewManager_no_wrong_sharing demoEnv [] [] [] firstTLSSpec secondTLSSpec [] firstTLSTrace
      { mqtts := [] } { mqtts := [{ id := 1, addr := ":1884" }] }
      (by decide) (by decide) (by decide) (by decide) (by decide)
  exact ⟨ta, sa, h1, by simpa using h2, h5⟩

/-- C5.  Take a spec `c` whose key path and certificate path are both empty, in a
construction that gets as far as `c` (`tr` is the trace when its pass begins).
The first call of the pass is the launch at the address of `c` with a nil TLS
config; processing `c` adds no call of the TLS config builder; if the launch
succeeds no error is reported and the server joins the manager; the only error
the pass can report is the error of the launch. -/
theorem NewManager_plaintext (env : Env) (pre post : List Listener) (c : Listener)
    (tr : List Event) (m : Manager)
    (hkey : c.Certificate.Key = "") (hcert : c.Certificate.Cert = "")
    (hpre : NewManager env pre = (tr, some m, none)) :
    (tr ++ [Event.Launch c.Address none (env.Launch tr c.Address none)]) <+:
        (NewManager env (pre ++ c :: post)).1 ∧
      builds (NewManager env (pre ++ [c])).1 = builds tr ∧
      (∀ svr, env.Launch tr c.Address none = .ok svr →
        (NewManager env (pre ++ [c])).2 = (some { mqtts := m.mqtts ++ [svr] }, none)) ∧
      (∀ e, env.Launch tr c.Address none = .error e →
        (NewManager env (pre ++ c :: post)).2 = (none, some e)) := by
  have hpass := NewManager.loop_cons_trace env c post m tr
  rw [← NewManager_append env pre (c :: post) tr m hpre, attempt_plain env c tr hkey hcert] at hpass
  have hone := NewManager_append env pre [c] tr m hpre
  cases hl : env.Launch tr c.Address none with
  | error e =>
    have hat : attempt env c tr = ([Event.Launch c.Address none (.error e)], .error e) := by
      rw [attempt_plain env c tr hkey hcert, hl]
    rw [hl] at hpass
    refine ⟨hpass, ?_, ?_, ?_⟩
    · rw [hone, (NewManager.loop_cons_error env c [] m tr _ e hat).2.2]
      simp [builds]
    · intro svr h
      cases h
    · intro e' h
      cases h
      rw [NewManager_append env pre (c :: post) tr m hpre]
      exact (NewManager.loop_cons_error env c post m tr _ e hat).1
  | ok svr =>
    rw [hl] at hpass
    have hat : attempt env c tr =
        ([Event.Launch c.Address none (.ok svr), Event.go svr c.Anonymous], .ok svr) := by
      rw [attempt_plain env c tr hkey hcert, hl]
    have hrun : NewManager env (pre ++ [c]) =
        (tr ++ [Event.Launch c.Address none (.ok svr), Event.go svr c.Anonymous] ++
          [Event.log Level.info "listener has initialized" (Field.listener svr.addr)],
          some { mqtts := m.mqtts ++ [svr] }, none) := by
      rw [hone, NewManager.loop_cons, hat]
      rfl
    refine ⟨?_, ?_, ?_, ?_⟩
    · obtain ⟨t, ht⟩ := hpass
      exact ⟨[Event.go svr c.Anonymous] ++ t, by rw [← ht]; simp⟩
    · rw [hrun]
      simp only [builds_append]
      simp [builds]
    · intro svr' h
      cases h
      rw [hrun]
    · intro e h
      cases h

/-- C5, on the plaintext spec ":1883" at the head of a list. -/
theorem NewManager_plaintext_witness :
    NewManager demoEnv [] = ([], some { mqtts := [] }, none) ∧
    [Event.Launch ":1883" none (.ok { id := 0, addr := ":1883" })] <+:
      (NewManager demoEnv (plainSpec ":1883" true :: demoSpecs)).1 ∧
    builds (NewManager demoEnv [plainSpec ":1883" true]).1 = [] := by
  refine ⟨by decide, ?_⟩
  obtain ⟨h1, h2, -, -⟩ := NewManager_plaintext demoEnv [] demoSpecs (plainSpec ":1883" true) []
    { mqtts := [] } (by decide) (by decide) (by decide)
  exact ⟨by simpa [demoEnv, plainSpec] using h1, by simpa [builds] using h2⟩

/-- C8.  Take a spec `c` with a non-empty key path or certificate path, in a
construction that gets as far as `c` (`tr` is the trace when its pass begins).
The first call of the pass is the TLS config builder, with the CA, key path and
certificate path of `c` and the client-auth mode verify-if-given, whatever mode
`c` carries; if the builder fails with `e`, `NewManager` returns a nil manager
with `e`, and no launch is made after `tr`, so none for `c`. -/
theorem NewManager_client_auth (env : Env) (pre post : List Listener) (c : Listener)
    (tr : List Event) (m : Manager)
    (htls : c.Certificate.Key ≠ "" ∨ c.Certificate.Cert ≠ "")
    (hpre : NewManager env pre = (tr, some m, none)) :
    (tr ++ [Event.NewTLSConfigServer
        { CA := c.Certificate.CA, Key := c.Certificate.Key, Cert := c.Certificate.Cert,
          ClientAuthType := ClientAuthType.VerifyClientCertIfGiven }
        (env.NewTLSConfigServer tr
          { CA := c.Certificate.CA, Key := c.Certificate.Key, Cert := c.Certificate.Cert,
            ClientAuthType := ClientAuthType.VerifyClientCertIfGiven })]) <+:
        (NewManager env (pre ++ c :: post)).1 ∧
      ∀ e, env.NewTLSConfigServer tr
          { CA := c.Certificate.CA, Key := c.Certificate.Key, Cert := c.Certificate.Cert,
            ClientAuthType := ClientAuthType.VerifyClientCertIfGiven } = .error e →
        (NewManager env (pre ++ c :: post)).2 = (none, some e) ∧
        launches (NewManager env (pre ++ c :: post)).1 = launches tr := by
  have hcert : serverCertificate c =
      { CA := c.Certificate.CA, Key := c.Certificate.Key, Cert := c.Certificate.Cert,
        ClientAuthType := ClientAuthType.VerifyClientCertIfGiven } := rfl
  rw [← hcert]
  have hpass := NewManager.loop_cons_trace env c post m tr
  rw [← NewManager_append env pre (c :: post) tr m hpre, attempt_tls env c tr htls] at hpass
  constructor
  · cases hb : env.NewTLSConfigServer tr (serverCertificate c) with
    | error e =>
      rw [hb] at hpass
      exact hpass
    | ok t =>
      rw [hb] at hpass
      simp only [] at hpass
      obtain ⟨rest, hrest⟩ := hpass
      cases hl : env.Launch (tr ++ [Event.NewTLSConfigServer (serverCertificate c) (.ok t)])
          c.Address t with
      | error e =>
        rw [hl] at hrest
        exact ⟨[Event.Launch c.Address t (.error e)] ++ rest, by rw [← hrest]; simp⟩
      | ok svr =>
        rw [hl] at hrest
        exact ⟨[Event.Launch c.Address t (.ok svr), Event.go svr c.Anonymous] ++ rest,
          by rw [← hrest]; simp⟩
  · intro e hb
    have hat : attempt env c tr =
        ([Event.NewTLSConfigServer (serverCertificate c) (.error e)], .error e) := by
      rw [attempt_tls env c tr htls, hb]
    rw [NewManager_append env pre (c :: post) tr m hpre]
    obtain ⟨h1, h2, -⟩ := NewManager.loop_cons_error env c post m tr _ e hat
    exact ⟨h1, by rw [h2]; simp [launches]⟩

/-- C8, on a spec that asks for require-and-verify and whose key file is missing:
the builder is called with verify-if-given and its error ends construction. -/
theorem NewManager_client_auth_witness :
    NewManager demoEnv [] = ([], some { mqtts := [] }, none) ∧
    [Event.NewTLSConfigServer
        { CA := "ca.pem", Key := "missing.key", Cert := "a.pem",
          ClientAuthType := ClientAuthType.VerifyClientCertIfGiven }
        (.error (Error.other "open missing.key: no such file"))] <+:
      (NewManager demoEnv (brokenTLSSpec :: demoSpecs)).1 ∧
    (NewManager demoEnv (brokenTLSSpec :: demoSpecs)).2 =
      (none, some (Error.other "open missing.key: no such file")) ∧
    launches (NewManager demoEnv (brokenTLSSpec :: demoSpecs)).1 = [] := by
  refine ⟨by decide, ?_⟩
  obtain ⟨h1, h2⟩ := NewManager_client_auth demoEnv [] demoSpecs brokenTLSSpec []
    { mqtts := [] } (by decide) (by decide)
  obtain ⟨h3, h4⟩ := h2 (Error.other "open missing.key: no such file") (by decide)
  exact ⟨by simpa [demoEnv, brokenTLSSpec, tlsSpec] using h1, h3, by simpa [launches] using h4⟩

/-! ### The accept loop -/

/-- The loop run on connections from each of which the handler returns: every
connection is accepted and handled in turn, and the loop goes on with whatever
follows. -/
theorem acceptLoop_connections (handler : Handler) (svr : Server) (anonymous : Bool)
    (conns : List Connection) (rest : List (Except Error Connection)) (tr : List Event)
    (hret : ∀ tr c, c ∈ conns → handler.Handle tr c anonymous = true) :
    acceptLoop handler svr anonymous (conns.map .ok ++ rest) tr =
      acceptLoop handler svr anonymous rest
        (tr ++ (conns.map fun c =>
          [Event.Accept svr (.ok c), Event.Handle c anonymous true]).flatten) := by
  induction conns generalizing tr with
  | nil => simp
  | cons c conns ih =>
    have hc : handler.Handle (tr ++ [Event.Accept svr (.ok c)]) c anonymous = true :=
      hret _ c (List.mem_cons_self c conns)
    simp only [List.map_cons, List.cons_append, acceptLoop, hc, if_true]
    show acceptLoop handler svr anonymous (List.map Except.ok conns ++ rest) _ = _
    rw [ih _ (fun tr d hd => hret tr d (List.mem_cons_of_mem c hd))]
    simp

/-- C7.  Let `Accept` deliver the connections `conns` and then fail with `e`
(`post` is whatever it would deliver afterwards), and let the handler return from
the call made for each connection of `conns`.  The loop calls `Handle` once for
each connection of `conns`, right after accepting it, in order and with the
anonymous flag of the listener; the failed `Accept` is followed by its log line
only (debug for `io.EOF`, error otherwise) and the loop has returned, so `post`
is never asked for.  As long as no `Accept` fails the loop stays in `Accept`
after handling every connection. -/
theorem acceptLoop_dispatch (handler : Handler) (svr : Server) (anonymous : Bool)
    (conns : List Connection) (e : Error) (post : List (Except Error Connection))
    (hret : ∀ tr c, c ∈ conns → handler.Handle tr c anonymous = true) :
    acceptLoop handler svr anonymous (conns.map .ok ++ .error e :: post) [] =
      ((conns.map fun c => [Event.Accept svr (.ok c), Event.Handle c anonymous true]).flatten ++
        [Event.Accept svr (.error e),
         Event.log (if e = Error.EOF then Level.debug else Level.error)
           "failed to accept connection" (Field.error e)],
       LoopState.returned) ∧
    acceptLoop handler svr anonymous (conns.map .ok) [] =
      ((conns.map fun c => [Event.Accept svr (.ok c), Event.Handle c anonymous true]).flatten,
       LoopState.inAccept) := by
  constructor
  · rw [acceptLoop_connections handler svr anonymous conns _ _ hret]
    by_cases he : e = Error.EOF
    · simp [acceptLoop, he]
    · simp [acceptLoop, he]
  · have h := acceptLoop_connections handler svr anonymous conns [] [] hret
    simp only [List.append_nil, List.nil_append] at h
    rw [h]
    simp [acceptLoop]

/-- C7, on two connections followed by the end of the stream and a connection
that is never accepted. -/
theorem acceptLoop_dispatch_witness :
    (∀ tr c, c ∈ [({ id := 7 } : Connection), { id := 8 }] →
      promptHandler.Handle tr c true = true) ∧
    acceptLoop promptHandler demoServer true
        [.ok { id := 7 }, .ok { id := 8 }, .error Error.EOF, .ok { id := 9 }] [] =
      ([Event.Accept demoServer (.ok { id := 7 }), Event.Handle { id := 7 } true true,
        Event.Accept demoServer (.ok { id := 8 }), Event.Handle { id := 8 } true true,
        Event.Accept demoServer (.error Error.EOF),
        Event.log Level.debug "failed to accept connection" (Field.error Error.EOF)],
       LoopState.returned) := by
  refine ⟨fun _ _ _ => rfl, ?_⟩
  have h := (acceptLoop_dispatch promptHandler demoServer true [{ id := 7 }, { id := 8 }]
    Error.EOF [.ok { id := 9 }] (fun _ _ _ => rfl)).1
  simpa using h

/-- What any run of the accept loop adds to the trace has the shape `LoopTrace`. -/
theorem acceptLoop_trace (handler : Handler) (svr : Server) (anonymous : Bool)
    (rs : List (Except Error Connection)) (tr : List Event) :
    ∃ sfx, (acceptLoop handler svr anonymous rs tr).1 = tr ++ sfx ∧
      LoopTrace svr anonymous sfx (acceptLoop handler svr anonymous rs tr).2 := by
  induction rs generalizing tr with
  | nil => exact ⟨[], by simp [acceptLoop], LoopTrace.waiting⟩
  | cons r rs ih =>
    cases r with
    | error err =>
      by_cases he : err = Error.EOF
      · exact ⟨[Event.Accept svr (.error err),
            Event.log Level.debug "failed to accept connection" (Field.error err)],
          by simp [acceptLoop, he], by
            simp only [acceptLoop, he, if_true]; exact LoopTrace.failed _ _⟩
      · exact ⟨[Event.Accept svr (.error err),
            Event.log Level.error "failed to accept connection" (Field.error err)],
          by simp [acceptLoop, he], by
            simp only [acceptLoop, he, if_false]; exact LoopTrace.failed _ _⟩
    | ok conn =>
      by_cases hh : handler.Handle (tr ++ [Event.Accept svr (.ok conn)]) conn anonymous = true
      · obtain ⟨sfx, h1, h2⟩ := ih (tr ++ [Event.Accept svr (.ok conn)] ++
          [Event.Handle conn anonymous true])
        refine ⟨Event.Accept svr (.ok conn) :: Event.Handle conn anonymous true :: sfx, ?_, ?_⟩
        · simp only [acceptLoop, hh, if_true]
          rw [h1]
          simp
        · simp only [acceptLoop, hh, if_true]
          exact LoopTrace.round _ _ _ h2
      · refine ⟨[Event.Accept svr (.ok conn), Event.Handle conn anonymous false], ?_, ?_⟩
        · simp [acceptLoop, hh]
        · simp only [acceptLoop, hh]
          exact LoopTrace.serving _

/-- In a trace of shape `LoopTrace` a `Handle` call that has not returned is the
last entry. -/
theorem LoopTrace.pending_last {svr : Server} {anonymous : Bool} {sfx : List Event}
    {st : LoopState} (h : LoopTrace svr anonymous sfx st) (pre post : List Event)
    (c : Connection) (a : Bool) (heq : sfx = pre ++ Event.Handle c a false :: post) :
    post = [] := by
  induction h generalizing pre with
  | waiting => simp at heq
  | failed err level =>
    rcases pre with _ | ⟨x, _ | ⟨y, pre⟩⟩ <;> simp at heq
  | serving conn =>
    rcases pre with _ | ⟨x, _ | ⟨y, pre⟩⟩ <;> simp at heq
    exact heq.2.2
  | round conn rest st _ ih =>
    rcases pre with _ | ⟨x, _ | ⟨y, pre⟩⟩
    · simp at heq
    · simp at heq
    · simp only [List.cons_append, List.cons.injEq] at heq
      exact ih pre heq.2.2

/-- In a trace of shape `LoopTrace` the entry before an `Accept` call is a
`Handle` call that returned. -/
theorem LoopTrace.accept_after_return {svr : Server} {anonymous : Bool} {sfx : List Event}
    {st : LoopState} (h : LoopTrace svr anonymous sfx st) (pre post : List Event)
    (ev : Event) (s : Server) (res : Except Error Connection)
    (heq : sfx = pre ++ ev :: Event.Accept s res :: post) :
    ∃ c, ev = Event.Handle c anonymous true := by
  induction h generalizing pre with
  | waiting => simp at heq
  | failed err level =>
    rcases pre with _ | ⟨x, _ | ⟨y, pre⟩⟩ <;> simp at heq
  | serving conn =>
    rcases pre with _ | ⟨x, _ | ⟨y, pre⟩⟩ <;> simp at heq
  | round conn rest st _ ih =>
    rcases pre with _ | ⟨x, _ | ⟨y, pre⟩⟩
    · simp at heq
    · simp only [List.cons_append, List.nil_append, List.cons.injEq] at heq
      exact ⟨conn, heq.2.1.symm⟩
    · simp only [List.cons_append, List.cons.injEq] at heq
      exact ih pre heq.2.2

/-- C10, refuted: two connections are ready, the handler keeps serving the first
inside `Handle`; the loop has called `Accept` once and stands in `Handle`, the
second connection is not accepted. -/
theorem acceptLoop_waits_for_handler :
    acceptLoop servingHandler demoServer true [.ok { id := 7 }, .ok { id := 8 }] [] =
      ([Event.Accept demoServer (.ok { id := 7 }), Event.Handle { id := 7 } true false],
       LoopState.inHandle) ∧
    acceptCalls (acceptLoop servingHandler demoServer true
      [.ok { id := 7 }, .ok { id := 8 }] []).1 = 1 := by
  decide

/-- C10, amended.  The accept loop calls `Handle` in line: for every handler and
whatever `Accept` delivers, a `Handle` call that has not returned is the last
thing the loop did, and every `Accept` call but the first comes right after a
`Handle` call, made with the anonymous flag of the listener, that has returned. -/
theorem acceptLoop_sequential (handler : Handler) (svr : Server) (anonymous : Bool)
    (rs : List (Except Error Connection)) :
    (∀ pre post c a,
      (acceptLoop handler svr anonymous rs []).1 = pre ++ Event.Handle c a false :: post →
      post = []) ∧
    (∀ pre post ev s res,
      (acceptLoop handler svr anonymous rs []).1 = pre ++ ev :: Event.Accept s res :: post →
      ∃ c, ev = Event.Handle c anonymous true) := by
  obtain ⟨sfx, h1, h2⟩ := acceptLoop_trace handler svr anonymous rs []
  rw [List.nil_append] at h1
  constructor
  · intro pre post c a heq
    exact h2.pending_last pre post c a (by rw [← h1, heq])
  · intro pre post ev s res heq
    exact h2.accept_after_return pre post ev s res (by rw [← h1, heq])

/-- C10 amended, on a handler that returns from two connections: the second
`Accept` comes right after the first `Handle` call has returned. -/
theorem acceptLoop_sequential_witness :
    (acceptLoop promptHandler demoServer false [.ok { id := 7 }, .ok { id := 8 }] []).1 =
      [Event.Accept demoServer (.ok { id := 7 })] ++ Event.Handle { id := 7 } false true ::
        Event.Accept demoServer (.ok { id := 8 }) :: [Event.Handle { id := 8 } false true] ∧
    ∃ c, Event.Handle { id := 7 } false true = Event.Handle c false true :=
  ⟨by decide,
   (acceptLoop_sequential promptHandler demoServer false [.ok { id := 7 }, .ok { id := 8 }]).2
     [Event.Accept demoServer (.ok { id := 7 })] [Event.Handle { id := 8 } false true]
     (Event.Handle { id := 7 } false true) demoServer (.ok { id := 8 }) (by decide)⟩

end Broker
